import Mathlib

/-!
Verification development for the WinDirStat scanning engine.

This file gives a shallow embedding of the engine components that the
checked properties talk about, translated from the C++ sources:

* `src/windirstat/BlockingQueue.h`  — the blocking work queue shared by the
  scan worker pool (scalar state model `BlockingQueue.QState`, and a
  per-worker labelled transition system `BlockingQueue.PoolState`).
* `src/windirstat/CsvLoader.cpp`    — the CSV writer (`SaveResults`) and the
  CSV loader (`LoadResults`).
* `src/windirstat/MainFrame.cpp`    — `CMainFrame::CreateProgress`.

Machine integers are modelled as `Nat` with explicit truncation (`% 2 ^ w`
or clamping) exactly where the C++ code truncates.  Blocking operations are
modelled as partial steps (`Option`): `none` means the caller stays blocked
on its condition variable.  Code that the C++ throws through (cancellation)
is modelled as an explicit outcome.  Undefined behaviour the loader can run
into (a null `newroot` dereference or an out-of-bounds field index) is
modelled as a distinguished `crash` result, separate from the function
returning `nullptr` (`fail`).
-/

namespace BlockingQueue

/-- Scalar state of a `BlockingQueue<T>`, mirroring the data members of the
class in `BlockingQueue.h` (the `std::deque` front is the list head). -/
structure QState (T : Type) where
  queue : List T
  workersWaiting : Nat
  totalWorkerThreads : Nat
  started : Bool
  suspended : Bool
  cancelled : Bool
deriving DecidableEq

/-- State right after `ResetQueue(n, false)` as called by `StartThreads`:
empty counters and flags, `n` worker threads. -/
def initQState (T : Type) (n : Nat) : QState T :=
  { queue := [], workersWaiting := 0, totalWorkerThreads := n,
    started := false, suspended := false, cancelled := false }

/-- `AllThreadsIdling`: `m_TotalWorkerThreads == m_WorkersWaiting`. -/
def AllThreadsIdling {T : Type} (s : QState T) : Bool :=
  s.totalWorkerThreads == s.workersWaiting

/-- `Push`: `m_Queue.push_front(value)` under the lock (plus a notify). -/
def Push {T : Type} (s : QState T) (v : T) : QState T :=
  { s with queue := v :: s.queue }

/-- The wake-up predicate of `Pop`, written exactly as the C++ source
`!m_Suspended && !m_Queue.empty() || m_Cancelled` parses under C++
operator precedence (`&&` binds tighter than `||`). -/
def popWakeCondition {T : Type} (s : QState T) : Bool :=
  (!s.suspended && !s.queue.isEmpty) || s.cancelled

/-- Outcome of `Pop`: either a task, or the cancellation exception thrown
to unwind the worker. -/
inductive PopOutcome (T : Type) where
  | cancelled
  | task (t : T)
deriving DecidableEq

/-- One attempt of `Pop` at a given state: `none` means the worker stays
blocked in `m_Pushed.wait` (its wake-up predicate is false).  On wake-up the
code decrements `m_WorkersWaiting`, throws if `m_Cancelled`, and otherwise
pops the deque front (`m_Queue.front()` then `pop_front`), setting
`m_Started`.  An empty queue on the non-cancelled path would be the C++ UB
`front()` on an empty deque; it is unreachable under the wake predicate and
modelled as staying blocked. -/
def Pop {T : Type} (s : QState T) : Option (PopOutcome T × QState T) :=
  let s1 := { s with workersWaiting := s.workersWaiting + 1 }
  if popWakeCondition s1 then
    let s2 := { s1 with workersWaiting := s1.workersWaiting - 1 }
    if s2.cancelled then
      some (.cancelled, s2)
    else
      match s2.queue with
      | [] => none
      | x :: xs => some (.task x, { s2 with started := true, queue := xs })
  else none

/-- `WaitForCompletionOrCancellation`: `none` while the caller stays
blocked; once the wake predicate (written as in the source, under C++
precedence) holds it returns `!m_Cancelled`. -/
def WaitForCompletionOrCancellation {T : Type} (s : QState T) : Option Bool :=
  if (s.started && !s.suspended && AllThreadsIdling s && s.queue.isEmpty) || s.cancelled
  then some (!s.cancelled) else none

/-- The state mutation performed by `SuspendExecution` before it waits
(`m_Suspended = true`); the call then blocks until `AllThreadsIdling()`. -/
def SuspendExecutionMark {T : Type} (s : QState T) : QState T :=
  { s with suspended := true }

/-- `ResumeExecution`: `m_Suspended = false` (plus notifies). -/
def ResumeExecution {T : Type} (s : QState T) : QState T :=
  { s with suspended := false }

/-- A sequence of `Push` calls, first call first. -/
def pushAllSeq {T : Type} (s : QState T) (ts : List T) : QState T :=
  ts.foldl Push s

/-- Repeatedly `Pop`, collecting the returned tasks in order, stopping when
blocked or cancelled; `n` bounds the number of pops. -/
def drainPops {T : Type} : Nat → QState T → List T
  | 0, _ => []
  | n + 1, s =>
    match Pop s with
    | some (.task t, s') => t :: drainPops n s'
    | _ => []

theorem pushAllSeq_spec {T : Type} (ts : List T) :
    ∀ s : QState T, pushAllSeq s ts = { s with queue := ts.reverse ++ s.queue } := by
  induction ts with
  | nil => intro s; rfl
  | cons t ts ih =>
    intro s
    show pushAllSeq (Push s t) ts = _
    rw [ih]
    simp [Push]

theorem drainPops_all {T : Type} :
    ∀ (q : List T) (s : QState T), s.queue = q → s.suspended = false → s.cancelled = false →
      drainPops q.length s = q := by
  intro q
  induction q with
  | nil => intro s _ _ _; rfl
  | cons x xs ih =>
    intro s hq hs hc
    have hpop : Pop s = some (.task x,
        { s with workersWaiting := s.workersWaiting + 1 - 1, started := true, queue := xs }) := by
      simp [Pop, popWakeCondition, hq, hs, hc]
    simp only [List.length_cons, drainPops, hpop]
    exact congrArg (List.cons x) (ih _ rfl hs hc)

end BlockingQueue

/-- Claim C2 (amended): the blocking work queue is a LIFO, not a FIFO:
`Push` does `m_Queue.push_front` and `Pop` removes `m_Queue.front()`, so for
every sequence of `Push` calls with no interleaved `Pop`s, subsequent `Pop`
calls return the tasks in the reverse of the order in which they were
pushed (last pushed, first popped). -/
theorem blockingQueue_push_pop_lifo {T : Type} (n : Nat) (ts : List T) :
    BlockingQueue.drainPops ts.length
      (BlockingQueue.pushAllSeq (BlockingQueue.initQState T n) ts) = ts.reverse := by
  rw [BlockingQueue.pushAllSeq_spec]
  have h := BlockingQueue.drainPops_all (ts.reverse ++ (BlockingQueue.initQState T n).queue)
    { BlockingQueue.initQState T n with
        queue := ts.reverse ++ (BlockingQueue.initQState T n).queue } rfl rfl rfl
  simpa [BlockingQueue.initQState] using h

/-- Claim C2 counterexample: pushing task 1 then task 2 onto a fresh queue
and popping twice yields `[2, 1]`, not the push order `[1, 2]`: the first
`Pop` does not return the first-pushed task. -/
theorem blockingQueue_fifo_counterexample :
    BlockingQueue.drainPops 2
        (BlockingQueue.pushAllSeq (BlockingQueue.initQState Nat 1) [1, 2]) = [2, 1] ∧
      BlockingQueue.drainPops 2
        (BlockingQueue.pushAllSeq (BlockingQueue.initQState Nat 1) [1, 2]) ≠ [1, 2] := by
  decide

namespace BlockingQueue

/-- Phase of one worker thread of the pool started by `StartThreads`.
`running` is a worker executing the callback (possibly inside a directory
enumeration); `popWaiting` is blocked in `Pop`'s `m_Pushed.wait` after
incrementing `m_WorkersWaiting`; `suspWaiting` is blocked in
`WaitIfSuspended`'s `m_Waiting.wait` after incrementing; `unwinding` is a
worker that has left a wait (decrementing) and thrown; `terminated` is a
worker whose `ThreadWrapper` catch block has run (incrementing
`m_WorkersWaiting` one final time) and whose thread has exited. -/
inductive WPhase where
  | running
  | popWaiting
  | suspWaiting
  | unwinding
  | terminated
deriving DecidableEq

/-- Whether a phase contributes to `m_WorkersWaiting`. -/
def isCounted : WPhase → Bool
  | .popWaiting => true
  | .suspWaiting => true
  | .terminated => true
  | _ => false

theorem isCounted_running : isCounted WPhase.running = false := rfl

theorem isCounted_popWaiting : isCounted WPhase.popWaiting = true := rfl

theorem isCounted_suspWaiting : isCounted WPhase.suspWaiting = true := rfl

theorem isCounted_unwinding : isCounted WPhase.unwinding = false := rfl

theorem isCounted_terminated : isCounted WPhase.terminated = true := rfl

/-- State of a `BlockingQueue` together with the phase of each worker of
its pool; the scalar fields mirror the class data members. -/
structure PoolState (T : Type) where
  workers : List WPhase
  queue : List T
  workersWaiting : Nat
  totalWorkerThreads : Nat
  started : Bool
  suspended : Bool
  cancelled : Bool
deriving DecidableEq

/-- State right after `StartThreads(n, cb)`: `ResetQueue(n, false)` zeroes
the counters and flags and all `n` workers start in the callback. -/
def initPool (T : Type) (n : Nat) : PoolState T :=
  { workers := List.replicate n .running, queue := [], workersWaiting := 0,
    totalWorkerThreads := n, started := false, suspended := false, cancelled := false }

/-- `AllThreadsIdling` on a pool state. -/
def AllThreadsIdlingP {T : Type} (s : PoolState T) : Bool :=
  s.totalWorkerThreads == s.workersWaiting

/-- One mutex-protected step of the queue lifecycle.  Each constructor
mirrors one code block of `BlockingQueue.h` executed under `m_Mutex` (or,
for `cancelSet`, the unlocked flag write in `CancelExecution`). -/
inductive PoolStep (T : Type) : PoolState T → PoolState T → Prop where
  | push (s : PoolState T) (t : T) :
      PoolStep T s { s with queue := t :: s.queue }
  | popEnter (s : PoolState T) (i : Nat) (h : s.workers.get? i = some WPhase.running) :
      PoolStep T s { s with
        workers := s.workers.set i WPhase.popWaiting,
        workersWaiting := s.workersWaiting + 1 }
  | popTake (s : PoolState T) (i : Nat) (x : T) (xs : List T)
      (h : s.workers.get? i = some WPhase.popWaiting) (hq : s.queue = x :: xs)
      (hs : s.suspended = false) (hc : s.cancelled = false) :
      PoolStep T s { s with
        workers := s.workers.set i WPhase.running,
        workersWaiting := s.workersWaiting - 1,
        queue := xs,
        started := true }
  | popCancel (s : PoolState T) (i : Nat)
      (h : s.workers.get? i = some WPhase.popWaiting) (hc : s.cancelled = true) :
      PoolStep T s { s with
        workers := s.workers.set i WPhase.unwinding,
        workersWaiting := s.workersWaiting - 1 }
  | suspEnter (s : PoolState T) (i : Nat)
      (h : s.workers.get? i = some WPhase.running) (hs : s.suspended = true) :
      PoolStep T s { s with
        workers := s.workers.set i WPhase.suspWaiting,
        workersWaiting := s.workersWaiting + 1 }
  | suspResume (s : PoolState T) (i : Nat)
      (h : s.workers.get? i = some WPhase.suspWaiting) (hs : s.suspended = false)
      (hc : s.cancelled = false) :
      PoolStep T s { s with
        workers := s.workers.set i WPhase.running,
        workersWaiting := s.workersWaiting - 1 }
  | suspCancel (s : PoolState T) (i : Nat)
      (h : s.workers.get? i = some WPhase.suspWaiting) (hc : s.cancelled = true) :
      PoolStep T s { s with
        workers := s.workers.set i WPhase.unwinding,
        workersWaiting := s.workersWaiting - 1 }
  | wrapperCatch (s : PoolState T) (i : Nat)
      (h : s.workers.get? i = some WPhase.unwinding) :
      PoolStep T s { s with
        workers := s.workers.set i WPhase.terminated,
        workersWaiting := s.workersWaiting + 1 }
  | callbackThrow (s : PoolState T) (i : Nat)
      (h : s.workers.get? i = some WPhase.running) :
      PoolStep T s { s with workers := s.workers.set i WPhase.unwinding }
  | cancelSet (s : PoolState T) :
      PoolStep T s { s with cancelled := true }
  | suspendSet (s : PoolState T) :
      PoolStep T s { s with suspended := true }
  | resumeSet (s : PoolState T) :
      PoolStep T s { s with suspended := false }

/-- States reachable within one queue lifecycle of a pool of `n` workers. -/
inductive PoolReachable (T : Type) (n : Nat) : PoolState T → Prop where
  | init : PoolReachable T n (initPool T n)
  | step {s s' : PoolState T} :
      PoolReachable T n s → PoolStep T s s' → PoolReachable T n s'

theorem countP_set_of_get? {α : Type} (p : α → Bool) :
    ∀ (l : List α) (i : Nat) (a b : α), l.get? i = some a →
      (l.set i b).countP p + (if p a then 1 else 0) =
        l.countP p + (if p b then 1 else 0) := by
  intro l
  induction l with
  | nil => intro i a b h; simp at h
  | cons x xs ih =>
    intro i a b h
    cases i with
    | zero =>
      simp only [List.get?] at h
      obtain rfl : x = a := by simpa using h
      simp [List.countP_cons]
      omega
    | succ j =>
      simp only [List.get?] at h
      have := ih j a b h
      simp [List.countP_cons]
      omega

theorem countP_pos_of_get? {α : Type} (p : α → Bool) (l : List α) (i : Nat) (a : α)
    (h : l.get? i = some a) (hp : p a = true) : 1 ≤ l.countP p := by
  have hm : a ∈ l := List.get?_mem h
  have : 0 < l.countP p := List.countP_pos_iff.mpr ⟨a, hm, hp⟩
  omega

/-- Counter coherence: in every reachable pool state, `m_WorkersWaiting`
equals the number of workers in a counted phase, and the worker list has
the pool's size. -/
theorem poolInvariant {T : Type} {n : Nat} {s : PoolState T}
    (h : PoolReachable T n s) :
    s.workersWaiting = s.workers.countP (fun w => isCounted w) ∧
      s.workers.length = n ∧ s.totalWorkerThreads = n := by
  induction h with
  | init =>
    refine ⟨?_, by simp [initPool], rfl⟩
    simp only [initPool]
    induction n with
    | zero => rfl
    | succ m ihm => simpa [List.replicate, List.countP_cons, isCounted] using ihm
  | @step s1 s2 hr hs ih =>
    obtain ⟨ih1, ih2, ih3⟩ := ih
    cases hs with
    | push t => exact ⟨ih1, ih2, ih3⟩
    | popEnter i h =>
      have hc := countP_set_of_get? (fun w => isCounted w) s1.workers i _ WPhase.popWaiting h
      simp [isCounted_running, isCounted_popWaiting, isCounted_suspWaiting,
        isCounted_unwinding, isCounted_terminated] at hc
      refine ⟨?_, by simpa using ih2, ih3⟩
      simp only
      omega
    | popTake i x xs h hq hsu hca =>
      have hc := countP_set_of_get? (fun w => isCounted w) s1.workers i _ WPhase.running h
      have hp := countP_pos_of_get? (fun w => isCounted w) s1.workers i _ h rfl
      simp [isCounted_running, isCounted_popWaiting, isCounted_suspWaiting,
        isCounted_unwinding, isCounted_terminated] at hc
      refine ⟨?_, by simpa using ih2, ih3⟩
      simp only
      omega
    | popCancel i h hca =>
      have hc := countP_set_of_get? (fun w => isCounted w) s1.workers i _ WPhase.unwinding h
      have hp := countP_pos_of_get? (fun w => isCounted w) s1.workers i _ h rfl
      simp [isCounted_running, isCounted_popWaiting, isCounted_suspWaiting,
        isCounted_unwinding, isCounted_terminated] at hc
      refine ⟨?_, by simpa using ih2, ih3⟩
      simp only
      omega
    | suspEnter i h hsu =>
      have hc := countP_set_of_get? (fun w => isCounted w) s1.workers i _ WPhase.suspWaiting h
      simp [isCounted_running, isCounted_popWaiting, isCounted_suspWaiting,
        isCounted_unwinding, isCounted_terminated] at hc
      refine ⟨?_, by simpa using ih2, ih3⟩
      simp only
      omega
    | suspResume i h hsu hca =>
      have hc := countP_set_of_get? (fun w => isCounted w) s1.workers i _ WPhase.running h
      have hp := countP_pos_of_get? (fun w => isCounted w) s1.workers i _ h rfl
      simp [isCounted_running, isCounted_popWaiting, isCounted_suspWaiting,
        isCounted_unwinding, isCounted_terminated] at hc
      refine ⟨?_, by simpa using ih2, ih3⟩
      simp only
      omega
    | suspCancel i h hca =>
      have hc := countP_set_of_get? (fun w => isCounted w) s1.workers i _ WPhase.unwinding h
      have hp := countP_pos_of_get? (fun w => isCounted w) s1.workers i _ h rfl
      simp [isCounted_running, isCounted_popWaiting, isCounted_suspWaiting,
        isCounted_unwinding, isCounted_terminated] at hc
      refine ⟨?_, by simpa using ih2, ih3⟩
      simp only
      omega
    | wrapperCatch i h =>
      have hc := countP_set_of_get? (fun w => isCounted w) s1.workers i _ WPhase.terminated h
      simp [isCounted_running, isCounted_popWaiting, isCounted_suspWaiting,
        isCounted_unwinding, isCounted_terminated] at hc
      refine ⟨?_, by simpa using ih2, ih3⟩
      simp only
      omega
    | callbackThrow i h =>
      have hc := countP_set_of_get? (fun w => isCounted w) s1.workers i _ WPhase.unwinding h
      simp [isCounted_running, isCounted_popWaiting, isCounted_suspWaiting,
        isCounted_unwinding, isCounted_terminated] at hc
      refine ⟨?_, by simpa using ih2, ih3⟩
      simp only
      omega
    | cancelSet => exact ⟨ih1, ih2, ih3⟩
    | suspendSet => exact ⟨ih1, ih2, ih3⟩
    | resumeSet => exact ⟨ih1, ih2, ih3⟩

end BlockingQueue

/-- Claim C3: `Pop` returns a task only when the queue is non-empty and not
suspended; it yields the `cancelled` outcome (the thrown exception that
unwinds the worker) whenever cancellation has been requested; and its
wake-up predicate `!m_Suspended && !m_Queue.empty() || m_Cancelled` is
equivalent to `((not suspended) and (queue non-empty)) or cancelled`. -/
theorem blockingQueue_pop_contract {T : Type} (s : BlockingQueue.QState T) :
    (BlockingQueue.popWakeCondition s = true ↔
      ((s.suspended = false ∧ s.queue ≠ []) ∨ s.cancelled = true)) ∧
    (∀ (t : T) (s' : BlockingQueue.QState T),
      BlockingQueue.Pop s = some (.task t, s') →
        s.cancelled = false ∧ s.suspended = false ∧ s.queue ≠ [] ∧ s.queue.head? = some t) ∧
    (s.cancelled = true →
      ∃ s', BlockingQueue.Pop s = some (.cancelled, s')) := by
  obtain ⟨q, ww, tw, st, su, ca⟩ := s
  refine ⟨?_, ?_, ?_⟩
  · simp [BlockingQueue.popWakeCondition, List.isEmpty_iff]
  · intro t s' h
    cases ca
    · cases su
      · cases q with
        | nil => simp [BlockingQueue.Pop, BlockingQueue.popWakeCondition] at h
        | cons a as =>
          simp [BlockingQueue.Pop, BlockingQueue.popWakeCondition] at h
          refine ⟨rfl, rfl, by simp, ?_⟩
          simp [← h.1]
      · simp [BlockingQueue.Pop, BlockingQueue.popWakeCondition] at h
    · simp [BlockingQueue.Pop, BlockingQueue.popWakeCondition] at h
  · intro hc
    cases ca
    · exact absurd hc (by simp)
    · exact ⟨BlockingQueue.QState.mk q (ww + 1 - 1) tw st su true,
        by simp [BlockingQueue.Pop, BlockingQueue.popWakeCondition]⟩

/-- Witness for claim C3 at a concrete state: a queue holding task 5,
not suspended, not cancelled (so `Pop` returns the task), and the same
state with the cancel flag set (so `Pop` returns the cancelled outcome). -/
theorem blockingQueue_pop_contract_witness :
    BlockingQueue.popWakeCondition
        ({ queue := [5], workersWaiting := 0, totalWorkerThreads := 1,
           started := false, suspended := false, cancelled := false } : BlockingQueue.QState Nat)
        = true ∧
    ({ queue := [5], workersWaiting := 0, totalWorkerThreads := 1,
       started := false, suspended := false, cancelled := false } :
        BlockingQueue.QState Nat).queue.head? = some 5 ∧
    (∃ s', BlockingQueue.Pop
      ({ queue := [5], workersWaiting := 0, totalWorkerThreads := 1,
         started := false, suspended := false, cancelled := true } : BlockingQueue.QState Nat)
      = some (.cancelled, s')) := by
  have h1 := blockingQueue_pop_contract
    ({ queue := [5], workersWaiting := 0, totalWorkerThreads := 1,
       started := false, suspended := false, cancelled := false } : BlockingQueue.QState Nat)
  have h2 := blockingQueue_pop_contract
    ({ queue := [5], workersWaiting := 0, totalWorkerThreads := 1,
       started := false, suspended := false, cancelled := true } : BlockingQueue.QState Nat)
  refine ⟨h1.1.mpr (Or.inl ⟨rfl, by decide⟩), ?_, h2.2.2 rfl⟩
  exact (h1.2.1 5
    { queue := [], workersWaiting := 0, totalWorkerThreads := 1,
      started := true, suspended := false, cancelled := false } (by decide)).2.2.2

/-- Claim C4: `WaitForCompletionOrCancellation` returns only when
`(started and not suspended and all workers idling and queue empty) or
cancelled` holds, and it returns `true` exactly when the queue was not
cancelled. -/
theorem blockingQueue_wait_completion_contract {T : Type} (s : BlockingQueue.QState T) :
    ∀ b, BlockingQueue.WaitForCompletionOrCancellation s = some b →
      ((s.started = true ∧ s.suspended = false ∧ BlockingQueue.AllThreadsIdling s = true ∧
          s.queue = []) ∨ s.cancelled = true) ∧
      (b = true ↔ s.cancelled = false) := by
  intro b h
  unfold BlockingQueue.WaitForCompletionOrCancellation at h
  by_cases hp : ((s.started && !s.suspended && BlockingQueue.AllThreadsIdling s &&
      s.queue.isEmpty) || s.cancelled) = true
  · rw [if_pos hp] at h
    have hb : b = !s.cancelled := by
      have := h
      simp only [Option.some.injEq] at this
      exact this.symm
    constructor
    · rcases Bool.or_eq_true_iff.mp hp with hl | hr
      · left
        have h1 := Bool.and_eq_true_iff.mp hl
        have h2 := Bool.and_eq_true_iff.mp h1.1
        have h3 := Bool.and_eq_true_iff.mp h2.1
        exact ⟨h3.1, by simpa using h3.2, h2.2, by simpa [List.isEmpty_iff] using h1.2⟩
      · right; exact hr
    · subst hb
      cases s.cancelled <;> simp
  · rw [if_neg hp] at h
    exact absurd h (by simp)

/-- Witness for claim C4 at a concrete state: started, not suspended, all
two workers waiting, empty queue, not cancelled — the wait returns, with
result `true`. -/
theorem blockingQueue_wait_completion_contract_witness :
    (({ queue := [], workersWaiting := 2, totalWorkerThreads := 2,
        started := true, suspended := false, cancelled := false } :
          BlockingQueue.QState Nat).started = true ∧
      ({ queue := [], workersWaiting := 2, totalWorkerThreads := 2,
         started := true, suspended := false, cancelled := false } :
          BlockingQueue.QState Nat).suspended = false ∧
      BlockingQueue.AllThreadsIdling
        ({ queue := [], workersWaiting := 2, totalWorkerThreads := 2,
           started := true, suspended := false, cancelled := false } :
          BlockingQueue.QState Nat) = true ∧
      ({ queue := [], workersWaiting := 2, totalWorkerThreads := 2,
         started := true, suspended := false, cancelled := false } :
          BlockingQueue.QState Nat).queue = []) ∨
    ({ queue := [], workersWaiting := 2, totalWorkerThreads := 2,
       started := true, suspended := false, cancelled := false } :
        BlockingQueue.QState Nat).cancelled = true := by
  exact (blockingQueue_wait_completion_contract _ true (by decide)).1

/-- Claim C7: in every reachable state of one queue lifecycle, the count of
waiting workers is at most the total worker count: each worker contributes
at most one to `m_WorkersWaiting`, whether it is blocked in `Pop`, blocked
in `WaitIfSuspended`, or has terminated through the cancellation exception
handler of `ThreadWrapper`. -/
theorem blockingQueue_workers_waiting_bounded {T : Type} {n : Nat}
    {s : BlockingQueue.PoolState T} (h : BlockingQueue.PoolReachable T n s) :
    s.workersWaiting ≤ s.totalWorkerThreads := by
  obtain ⟨h1, h2, h3⟩ := BlockingQueue.poolInvariant h
  rw [h1, h3, ← h2]
  exact List.countP_le_length _

/-- Witness for claim C7 at the initial (reachable) state of a two-worker
pool. -/
theorem blockingQueue_workers_waiting_bounded_witness :
    (BlockingQueue.initPool Nat 2).workersWaiting ≤
      (BlockingQueue.initPool Nat 2).totalWorkerThreads :=
  blockingQueue_workers_waiting_bounded BlockingQueue.PoolReachable.init

/-- Claim C5: in any reachable pool state in which `AllThreadsIdling()`
holds — in particular at the moment `SuspendExecution`'s wait returns to
its caller — every worker of the pool is in a counted idle phase (blocked
in `Pop`, blocked in `WaitIfSuspended`, or terminated through the
cancellation handler), so no worker is still running inside a directory
enumeration; moreover the state mutations performed by `SuspendExecution`
(`m_Suspended = true`) and `ResumeExecution` (`m_Suspended = false`) are
idempotent. -/
theorem blockingQueue_suspend_quiescent {T : Type} :
    (∀ (n : Nat) (s : BlockingQueue.PoolState T), BlockingQueue.PoolReachable T n s →
      BlockingQueue.AllThreadsIdlingP s = true →
      ∀ w ∈ s.workers, BlockingQueue.isCounted w = true) ∧
    (∀ s : BlockingQueue.QState T,
      BlockingQueue.SuspendExecutionMark (BlockingQueue.SuspendExecutionMark s) =
        BlockingQueue.SuspendExecutionMark s) ∧
    (∀ s : BlockingQueue.QState T,
      BlockingQueue.ResumeExecution (BlockingQueue.ResumeExecution s) =
        BlockingQueue.ResumeExecution s) := by
  refine ⟨?_, fun s => rfl, fun s => rfl⟩
  intro n s hr hidle w hw
  obtain ⟨h1, h2, h3⟩ := BlockingQueue.poolInvariant hr
  have hb : s.totalWorkerThreads = s.workersWaiting := by
    simpa [BlockingQueue.AllThreadsIdlingP] using hidle
  have hlen : s.workers.countP (fun w => BlockingQueue.isCounted w) = s.workers.length := by
    omega
  exact List.countP_eq_length.mp hlen w hw

/-- Witness for claim C5: from a fresh one-worker pool, after the worker
enters `Pop`'s wait (a reachable state where `AllThreadsIdling()` holds),
the theorem reports that worker idle. -/
theorem blockingQueue_suspend_quiescent_witness :
    BlockingQueue.isCounted BlockingQueue.WPhase.popWaiting = true := by
  have h := (blockingQueue_suspend_quiescent (T := Nat)).1 1 _
    (BlockingQueue.PoolReachable.step BlockingQueue.PoolReachable.init
      (BlockingQueue.PoolStep.popEnter (BlockingQueue.initPool Nat 1) 0 (by decide)))
    (by decide)
  exact h BlockingQueue.WPhase.popWaiting (by decide)

namespace MainFrame

/-- The three reparse-exclusion options read by `CMainFrame::CreateProgress`
(`COptions::ExcludeVolumeMountPoints`, `COptions::ExcludeJunctions`,
`COptions::ExcludeSymbolicLinks`). -/
structure ExclusionOptions where
  excludeVolumeMountPoints : Bool
  excludeJunctions : Bool
  excludeSymbolicLinks : Bool
deriving DecidableEq

/-- Which progress UI `CreateProgress` builds: a percentage status-bar
progress (`CreateStatusProgress`) or the indeterminate pacman animation
(`CreatePacmanProgress`). -/
inductive ProgressStyle where
  | statusBar
  | pacman
deriving DecidableEq

/-- `CMainFrame::CreateProgress` from `MainFrame.cpp`: when any of the
three exclusion options is disabled the range is forced to 0; the stored
`m_ProgressRange` and the chosen progress UI are returned (`m_ProgressPos`
is zeroed and the progress made visible, which the claims do not touch). -/
def CreateProgress (opts : ExclusionOptions) (range : Nat) : Nat × ProgressStyle :=
  let range' :=
    if !opts.excludeVolumeMountPoints || !opts.excludeJunctions ||
        !opts.excludeSymbolicLinks then 0
    else range
  (range', if range' > 0 then .statusBar else .pacman)

end MainFrame

/-- Claim C9: when any of the exclusion options (exclude volume mount
points, exclude junctions, exclude symbolic links) is disabled, the
progress range is forced to 0 and the indeterminate pacman animation is
shown instead of a percentage progress bar; a percentage bar is created
exactly when the resulting range is positive. -/
theorem mainFrame_create_progress_contract (opts : MainFrame.ExclusionOptions) (range : Nat) :
    ((opts.excludeVolumeMountPoints = false ∨ opts.excludeJunctions = false ∨
        opts.excludeSymbolicLinks = false) →
      MainFrame.CreateProgress opts range = (0, .pacman)) ∧
    ((MainFrame.CreateProgress opts range).2 = .statusBar ↔
      (MainFrame.CreateProgress opts range).1 > 0) := by
  obtain ⟨a, b, c⟩ := opts
  constructor
  · intro h
    rcases h with h | h | h <;> subst h <;>
      simp [MainFrame.CreateProgress]
  · cases a <;> cases b <;> cases c <;>
      simp [MainFrame.CreateProgress] <;>
      by_cases hr : range > 0 <;> simp [hr] <;> omega

/-- Witness for claim C9: with junction exclusion disabled and a nominal
range of 100, the progress is created with range 0 and the pacman UI. -/
theorem mainFrame_create_progress_contract_witness :
    MainFrame.CreateProgress
      { excludeVolumeMountPoints := true, excludeJunctions := false,
        excludeSymbolicLinks := true } 100 = (0, .pacman) :=
  (mainFrame_create_progress_contract
    { excludeVolumeMountPoints := true, excludeJunctions := false,
      excludeSymbolicLinks := true } 100).1 (Or.inr (Or.inl rfl))

namespace Csv

/-- Wide strings (`std::wstring`) as lists of characters.  The loader's
UTF-8/UTF-16 conversions (`MultiByteToWideChar`, `WideCharToMultiByte`) are
modelled as the identity: for representable text they are inverse bijections,
and the extra terminating null that `LoadResults` leaves at the end of each
converted line is consumed by no observable operation (`wcstoul` and friends
stop at it, and every string-valued field the loader keeps is quoted, hence
closed before it). -/
abbrev WStr := List Char

/-- Decimal-digit test used by the numeric conversions. -/
def isDecDigit (c : Char) : Bool := 48 ≤ c.toNat && c.toNat ≤ 57

/-- Accumulate a maximal decimal-digit prefix, C `strtoul`-style. -/
def parseDecDigits : WStr → Nat → Nat
  | [], acc => acc
  | c :: cs, acc =>
    if isDecDigit c then parseDecDigits cs (acc * 10 + (c.toNat - 48)) else acc

/-- `wcstoul(s, nullptr, 10)` on MSVC: `unsigned long` is 32-bit, and on
overflow `ULONG_MAX` is returned, i.e. the value of a digit string is
clamped to `2^32 - 1`.  (Leading whitespace/sign prefixes, which the writer
never emits, are not modelled.) -/
def wcstoulDec (s : WStr) : Nat := min (parseDecDigits s 0) (2 ^ 32 - 1)

/-- `_wcstoui64(s, nullptr, 10)`: 64-bit unsigned conversion, clamped to
`2^64 - 1` on overflow. -/
def wcstoui64Dec (s : WStr) : Nat := min (parseDecDigits s 0) (2 ^ 64 - 1)

/-- Value of one hexadecimal digit, or `none`. -/
def hexDigitVal (c : Char) : Option Nat :=
  if 48 ≤ c.toNat && c.toNat ≤ 57 then some (c.toNat - 48)
  else if 65 ≤ c.toNat && c.toNat ≤ 70 then some (c.toNat - 55)
  else if 97 ≤ c.toNat && c.toNat ≤ 102 then some (c.toNat - 87)
  else none

/-- Accumulate a maximal hexadecimal-digit prefix. -/
def parseHexDigits : WStr → Nat → Nat
  | [], acc => acc
  | c :: cs, acc =>
    match hexDigitVal c with
    | some v => parseHexDigits cs (acc * 16 + v)
    | none => acc

/-- `strtoul` base-16 accepts an optional `0x`/`0X` prefix. -/
def stripHexPrefix : WStr → WStr
  | '0' :: 'x' :: rest => rest
  | '0' :: 'X' :: rest => rest
  | s => s

/-- `wcstoul(s, nullptr, 16)`: 32-bit, clamped on overflow. -/
def wcstoulHex (s : WStr) : Nat := min (parseHexDigits (stripHexPrefix s) 0) (2 ^ 32 - 1)

/-- Decimal digit character. -/
def decDigitCh (n : Nat) : Char := Char.ofNat (48 + n)

/-- Uppercase hexadecimal digit character (as `{:X}` formats). -/
def hexDigitCh (n : Nat) : Char := if n < 10 then Char.ofNat (48 + n) else Char.ofNat (55 + n)

/-- Digit expansion with explicit fuel (64 digits cover every value below
`10^64`, far beyond the 64-bit quantities the CSV holds), most significant
digit first, empty for 0. -/
def natDigitsAux (base : Nat) (digit : Nat → Char) : Nat → Nat → WStr → WStr
  | 0, _, acc => acc
  | _ + 1, 0, acc => acc
  | fuel + 1, n, acc => natDigitsAux base digit fuel (n / base) (digit (n % base) :: acc)

/-- `std::format("{}", n)` for an unsigned integer. -/
def natToDec (n : Nat) : WStr :=
  if n = 0 then ['0'] else natDigitsAux 10 decDigitCh 64 n []

/-- `std::format("{:0wX}", n)`: uppercase hex, zero-padded to `width`. -/
def natToHexPad (width n : Nat) : WStr :=
  let ds := natDigitsAux 16 hexDigitCh 64 n []
  List.replicate (width - ds.length) '0' ++ ds

/-- Zero-padded decimal of fixed minimum width. -/
def padDec (width n : Nat) : WStr :=
  let ds := natToDec n
  List.replicate (width - ds.length) '0' ++ ds

/-- Hinnant civil-from-days, anchored at 0000-03-01: year/month/day for a
day count `z` (so the Gregorian leap rules of the proleptic calendar used
by `std::chrono` apply). -/
def civilFromDays (z : Nat) : Nat × Nat × Nat :=
  let era := z / 146097
  let doe := z % 146097
  let yoe := (doe - doe / 1460 + doe / 36524 - doe / 146096) / 365
  let y := yoe + era * 400
  let doy := doe - (365 * yoe + yoe / 4 - yoe / 100)
  let mp := (5 * doy + 2) / 153
  let d := doy - (153 * mp + 2) / 5 + 1
  let m := if mp < 10 then mp + 3 else mp - 9
  (if m ≤ 2 then y + 1 else y, m, d)

/-- Hinnant days-from-civil, inverse of `civilFromDays`. -/
def daysFromCivil (y m d : Nat) : Nat :=
  let y' := if m ≤ 2 then y - 1 else y
  let era := y' / 400
  let yoe := y' % 400
  let mp := if 2 < m then m - 3 else m + 9
  let doy := (153 * mp + 2) / 5 + d - 1
  era * 146097 + (yoe * 365 + yoe / 4 - yoe / 100 + doy)

/-- Days from the civil anchor 0000-03-01 to the `file_clock` epoch
1601-01-01 (the Windows `FILETIME` epoch). -/
def fileEpochShift : Nat := 584694

/-- 100-nanosecond ticks per second (`FILETIME` resolution). -/
def ticksPerSecond : Nat := 10000000

/-- Model of `std::format("{:%FT%TZ}", tp)` for a `file_clock` time point
holding `t` 100ns ticks: ISO date, `T`, time of day with the seven
fractional digits of the 100ns period, and a literal `Z`. -/
def formatLastChange (t : Nat) : WStr :=
  let secs := t / ticksPerSecond
  let frac := t % ticksPerSecond
  let days := secs / 86400
  let tod := secs % 86400
  let ymd := civilFromDays (days + fileEpochShift)
  padDec 4 ymd.1 ++ '-' :: padDec 2 ymd.2.1 ++ '-' :: padDec 2 ymd.2.2 ++
    'T' :: padDec 2 (tod / 3600) ++ ':' :: padDec 2 (tod % 3600 / 60) ++
    ':' :: padDec 2 (tod % 60) ++ '.' :: padDec 7 frac ++ ['Z']

/-- Maximal digit prefix and the remainder. -/
def takeDigits : WStr → WStr × WStr
  | [] => ([], [])
  | c :: cs =>
    if isDecDigit c then
      let r := takeDigits cs
      (c :: r.1, r.2)
    else ([], c :: cs)

/-- Expect one literal character. -/
def expectCh (c : Char) : WStr → Option WStr
  | [] => none
  | x :: xs => if x = c then some xs else none

/-- Optional fractional-second part of `%S`: scaled to the 100ns (7-digit)
precision of the target `file_clock` duration. -/
def parseFrac : WStr → Nat × WStr
  | '.' :: rest =>
    let r := takeDigits rest
    let ds := r.1.take 7
    (parseDecDigits ds 0 * 10 ^ (7 - ds.length), r.2)
  | s => (0, s)

/-- Model of `std::chrono::parse(L"%Y-%m-%dT%H:%M:%S%Z", tp)` into ticks
since the `file_clock` epoch: `none` on a shape mismatch. -/
def parseTimePoint (s : WStr) : Option Nat :=
  let ry := takeDigits s
  if ry.1 = [] then none else
  match expectCh '-' ry.2 with
  | none => none
  | some r2 =>
    let rm := takeDigits r2
    if rm.1 = [] then none else
    match expectCh '-' rm.2 with
    | none => none
    | some r4 =>
      let rd := takeDigits r4
      if rd.1 = [] then none else
      match expectCh 'T' rd.2 with
      | none => none
      | some r6 =>
        let rh := takeDigits r6
        if rh.1 = [] then none else
        match expectCh ':' rh.2 with
        | none => none
        | some r8 =>
          let rmi := takeDigits r8
          if rmi.1 = [] then none else
          match expectCh ':' rmi.2 with
          | none => none
          | some r10 =>
            let rs := takeDigits r10
            if rs.1 = [] then none else
            let rf := parseFrac rs.2
            match expectCh 'Z' rf.2 with
            | none => none
            | some _ =>
              let days := daysFromCivil (parseDecDigits ry.1 0) (parseDecDigits rm.1 0)
                (parseDecDigits rd.1 0) - fileEpochShift
              some (((days * 86400 + parseDecDigits rh.1 0 * 3600 +
                parseDecDigits rmi.1 0 * 60 + parseDecDigits rs.1 0) * ticksPerSecond) + rf.1)

/-- `FromTimeString` of `CsvLoader.cpp`: a failed `chrono::parse` leaves the
default-constructed (epoch) time point, i.e. 0 ticks; the `FILETIME`
reassembly through `dwLowDateTime`/`dwHighDateTime` is value-preserving. -/
def FromTimeString (s : WStr) : Nat :=
  match parseTimePoint s with
  | some t => t
  | none => 0

/-- Engine item-type bits.  Modelled from the spec: `Item.h` is not under
`src/`; §3 lists the kinds {MyComputer, Drive, Directory, File, FreeSpace,
Unknown, Reparse} with flag bits such as ROOT, §4.7 fixes the on-disk flag
format to 16 bits (`0x%04X`) and its example row uses `0x0020` for a plain
file, so `IT_FILE` is bit 5; the remaining kinds get distinct low bits and
the ROOT flag a high bit, all within 16 bits.  The claims depend only on
the bits being distinct. -/
def IT_MYCOMPUTER : Nat := 1

def IT_DRIVE : Nat := 2

def IT_DIRECTORY : Nat := 4

def IT_FREESPACE : Nat := 8

def IT_UNKNOWN : Nat := 16

def IT_FILE : Nat := 32

def ITF_ROOTITEM : Nat := 4096

/-- Bit test on a raw type word (`IsType` on the C++ item). -/
def hasTypeFlag (raw mask : Nat) : Bool := (raw &&& mask) != 0

/-- A tree item.  Modelled from the spec (`Item.h` is not under `src/`):
§3 gives the attributes — kind/flag word, leaf name, last-change 100ns
ticks, physical and logical sizes and counts as unsigned 64-bit numbers, OS
attribute mask, ordered children.  The constructor argument order follows
the `CItem` constructor call in `LoadResults`. -/
inductive CItem where
  | mk (rawType : Nat) (name : WStr) (lastChange : Nat) (sizePhysical : Nat)
      (sizeLogical : Nat) (attributes : Nat) (files : Nat) (folders : Nat)
      (children : List CItem)

def CItem.rawType : CItem → Nat
  | .mk t _ _ _ _ _ _ _ _ => t

def CItem.name : CItem → WStr
  | .mk _ n _ _ _ _ _ _ _ => n

def CItem.lastChange : CItem → Nat
  | .mk _ _ lc _ _ _ _ _ _ => lc

def CItem.sizePhysical : CItem → Nat
  | .mk _ _ _ sp _ _ _ _ _ => sp

def CItem.sizeLogical : CItem → Nat
  | .mk _ _ _ _ sl _ _ _ _ => sl

def CItem.attributes : CItem → Nat
  | .mk _ _ _ _ _ a _ _ _ => a

def CItem.files : CItem → Nat
  | .mk _ _ _ _ _ _ f _ _ => f

def CItem.folders : CItem → Nat
  | .mk _ _ _ _ _ _ _ fo _ => fo

def CItem.children : CItem → List CItem
  | .mk _ _ _ _ _ _ _ _ c => c

/-- `IsType` on an item. -/
def CItem.IsType (it : CItem) (mask : Nat) : Bool := hasTypeFlag it.rawType mask

/-- `TmiIsLeaf`.  Modelled from the spec: files and the FreeSpace/Unknown
pseudo-items are leaves of the treemap; drives, directories and MyComputer
are interior. -/
def CItem.TmiIsLeaf (it : CItem) : Bool :=
  it.IsType (IT_FILE ||| IT_FREESPACE ||| IT_UNKNOWN)

/-- `GetItemsCount`.  Modelled from the spec: the number of items a node
accounts for, its files count plus its folders count. -/
def CItem.GetItemsCount (it : CItem) : Nat := it.files + it.folders

end Csv

namespace Csv

mutual
/-- The field scanner of `LoadResults` (its `for (pos …)` loop) on the rest
of the current line, at a field boundary.  A leading `"` starts a quoted
field whose end is the next `"`; a missing closing quote makes the loader
return `nullptr` (`none` here).  An immediate `,` yields an empty field.
Otherwise the field runs to the next comma (or the line end). -/
def parseFieldsFrom : WStr → Option (List WStr)
  | [] => some []
  | '\"' :: rest => parseQuoted rest []
  | ',' :: rest => (parseFieldsFrom rest).map (fun fs => [] :: fs)
  | c :: rest => parseUnquoted rest [c]

/-- Inside a quoted field (accumulator reversed).  After the closing quote
the source sets `pos = end + 1` and the loop increment skips one further
character, whatever it is. -/
def parseQuoted : WStr → WStr → Option (List WStr)
  | [], _ => none
  | '\"' :: rest, acc =>
    match rest with
    | [] => some [acc.reverse]
    | _ :: rest2 => (parseFieldsFrom rest2).map (fun fs => acc.reverse :: fs)
  | c :: rest, acc => parseQuoted rest (c :: acc)

/-- Inside an unquoted field (accumulator reversed): ends at a comma or at
the line end. -/
def parseUnquoted : WStr → WStr → Option (List WStr)
  | [], acc => some [acc.reverse]
  | ',' :: rest, acc => (parseFieldsFrom rest).map (fun fs => acc.reverse :: fs)
  | c :: rest, acc => parseUnquoted rest (c :: acc)
end

/-- The CSV columns of the `FIELD_…` enumeration in `CsvLoader.cpp`. -/
inductive Field where
  | name
  | files
  | folders
  | sizeLogical
  | sizePhysical
  | attributes
  | lastChange
  | attributesWds
  | owner
deriving DecidableEq

/-- All columns, in the enumeration order. -/
def allFields : List Field :=
  [.name, .files, .folders, .sizeLogical, .sizePhysical, .attributes,
   .lastChange, .attributesWds, .owner]

/-- The required columns: every one except the optional OWNER. -/
def requiredFields : List Field :=
  [.name, .files, .folders, .sizeLogical, .sizePhysical, .attributes,
   .lastChange, .attributesWds]

/-- `Localization::Lookup` of the column labels (and, for the engine-flags
column, app title + space + attributes label), modelled as fixed, pairwise
distinct labels.  Writer and loader run in the same process and call the
same lookups, so both sides share this map; the claims depend only on the
labels being distinct. -/
def colLabel : Field → WStr
  | .name => "Name".toList
  | .files => "Files".toList
  | .folders => "Folders".toList
  | .sizeLogical => "Size (Logical)".toList
  | .sizePhysical => "Size (Physical)".toList
  | .attributes => "Attributes".toList
  | .lastChange => "Last Change".toList
  | .attributesWds => "WinDirStat Attributes".toList
  | .owner => "Owner".toList

/-- The `resMap` reverse lookup: which column a header label denotes. -/
def resLookup (s : WStr) : Option Field :=
  allFields.find? (fun f => colLabel f == s)

/-- `ParseHeaderLine`: the header-driven column map (`orderMap`), sending a
column to the index it occupies in this file's header; as in the source
loop, a later matching header cell overwrites an earlier one. -/
def ParseHeaderLine (header : List WStr) : Field → Option Nat := fun f =>
  (List.range header.length).foldl
    (fun acc c =>
      match header.get? c with
      | some h => if resLookup h = some f then some c else acc
      | none => acc)
    none

/-- `QuoteAndConvert`: wrap in double quotes (no escaping of embedded
quotes is performed); the UTF-8 conversion is the identity here. -/
def QuoteAndConvert (s : WStr) : WStr := '\"' :: s ++ ['\"']

/-- The writer's header cells, in its fixed order, with OWNER appended when
the owner column is enabled (`COptions::ShowColumnOwner`). -/
def headerColumns (showOwner : Bool) : List WStr :=
  [colLabel .name, colLabel .files, colLabel .folders, colLabel .sizeLogical,
   colLabel .sizePhysical, colLabel .attributes, colLabel .lastChange,
   colLabel .attributesWds] ++ (if showOwner then [colLabel .owner] else [])

/-- Quote each header cell, comma-separating (the source emits a comma
after every cell but the last). -/
def joinCommaQuoted : List WStr → WStr
  | [] => []
  | [c] => QuoteAndConvert c
  | c :: cs => QuoteAndConvert c ++ ',' :: joinCommaQuoted cs

/-- The header line written by `SaveResults`. -/
def headerLine (showOwner : Bool) : WStr := joinCommaQuoted (headerColumns showOwner)

/-- `GetOwner(true)` of an item: owner strings live outside the engine
(looked up from the OS security info on demand) and outside `src/`;
modelled as empty, which no claim observes. -/
def ownerText : WStr := []

/-- `GetPath` recursion step.  Modelled from the spec: the full path is
recoverable by walking to the root, appending the leaf name with a `\`
separator (drive roots already end in a backslash, giving `C:\x` rather
than `C:\\x`). -/
def pathAppend (p n : WStr) : WStr :=
  if p.getLast? = some '\\' then p ++ n else p ++ '\\' :: n

/-- One output row of `SaveResults`: `std::format` with the item's name
(pseudo-items) or its full path, the counts and sizes in decimal, the OS
attributes as `0x%08X`, the timestamp as `%FT%TZ`, and the raw type cast
to `unsigned short` as `0x%04X`; the quoted owner is appended when the
owner column is on. -/
def rowLine (showOwner : Bool) (path : WStr) (it : CItem) : WStr :=
  let nonPathItem := it.IsType (IT_MYCOMPUTER ||| IT_UNKNOWN ||| IT_FREESPACE)
  QuoteAndConvert (if nonPathItem then it.name else path) ++
  ',' :: natToDec it.files ++ ',' :: natToDec it.folders ++
  ',' :: natToDec it.sizeLogical ++ ',' :: natToDec it.sizePhysical ++
  ',' :: '0' :: 'x' :: natToHexPad 8 it.attributes ++
  ',' :: formatLastChange it.lastChange ++
  ',' :: '0' :: 'x' :: natToHexPad 4 (it.rawType % 65536) ++
  (if showOwner then ',' :: QuoteAndConvert ownerText else [])

/-- The stack entries of the writer's traversal: an item paired with its
full path (the source stores bare pointers and calls `GetPath()`; the path
of the starting item is its stored name, which for saved roots is the full
path per the CSV format). -/
def childEntries (p : WStr) (ch : List CItem) : List (WStr × CItem) :=
  ch.map (fun c => (pathAppend p c.name, c))

mutual
/-- Structural size measure used to justify the writer's stack loop. -/
def itemWeight : CItem → Nat
  | .mk _ _ _ _ _ _ _ _ ch => 1 + listWeight ch

def listWeight : List CItem → Nat
  | [] => 0
  | c :: cs => itemWeight c + listWeight cs
end

theorem listWeight_eq_sum (ch : List CItem) :
    listWeight ch = (ch.map itemWeight).sum := by
  induction ch with
  | nil => rfl
  | cons c cs ih => simp [listWeight, ih]

theorem stackWeight_childEntries (p : WStr) (ch : List CItem) :
    ((childEntries p ch).map (fun e => itemWeight e.2)).reverse.sum =
      listWeight ch := by
  rw [List.sum_reverse, childEntries, List.map_map, listWeight_eq_sum]
  rfl

/-- The item-output loop of `SaveResults`: a `std::stack` seeded with the
given item; each iteration pops the top, emits its row, and (for non-file
items) pushes the children in order — so the last child is processed
first. -/
def SaveRowsLoop (showOwner : Bool) : List (WStr × CItem) → List WStr
  | [] => []
  | (p, i) :: rest =>
    rowLine showOwner p i ::
      SaveRowsLoop showOwner
        ((if i.IsType IT_FILE then [] else (childEntries p i.children).reverse) ++ rest)
termination_by st => (st.map (fun e => itemWeight e.2)).sum
decreasing_by
  cases i with
  | mk a b lc sp sl attr f fo ch =>
    have hw : ((childEntries p ch).map (fun e => itemWeight e.2)).reverse.sum = listWeight ch :=
      stackWeight_childEntries p ch
    by_cases hf : (CItem.mk a b lc sp sl attr f fo ch).IsType IT_FILE = true
    · simp [hf, itemWeight]
    · simp [hf, CItem.children, itemWeight]
      omega

/-- `SaveResults`: opens the output stream (never checking the open
succeeded — a failed open swallows all writes), emits the header line and
the rows of the item's subtree, and returns `true` unconditionally.  The
result is the written lines (each terminated by `\r\n` in the byte stream)
and the returned status. -/
def SaveResults (showOwner canOpen : Bool) (item : CItem) : List WStr × Bool :=
  (if canOpen then headerLine showOwner :: SaveRowsLoop showOwner [(item.name, item)]
   else [], true)

end Csv

namespace Csv

mutual
/-- Recursive characterisation of the writer's stack traversal: the item's
row followed by the emissions of its children — last child first, since the
loop pushes the children in order onto a stack — and nothing below a
file-typed item. -/
def emitRows (showOwner : Bool) : WStr → CItem → List WStr
  | p, .mk a b lc sp sl attr f fo ch =>
    rowLine showOwner p (.mk a b lc sp sl attr f fo ch) ::
      (if (CItem.mk a b lc sp sl attr f fo ch).IsType IT_FILE then []
       else emitList showOwner p ch [])

/-- Emissions of a child list in reverse order, as an accumulator fold:
`emitList so p [c1, …, ck] acc = emit ck ++ … ++ emit c1 ++ acc`. -/
def emitList (showOwner : Bool) : WStr → List CItem → List WStr → List WStr
  | _, [], acc => acc
  | p, c :: cs, acc =>
    emitList showOwner p cs (emitRows showOwner (pathAppend p c.name) c ++ acc)
end

/-- Result of `LoadResults`: `fail` is the function returning `nullptr`;
`crash` marks the undefined behaviour the loader can reach on malformed
input (calling `AddChild` through the null `newroot`, indexing a row vector
out of bounds through `orderMap`, or constructing an item from the null
`wcsrchr` result); `ok` carries the rebuilt root. -/
inductive LoadResult where
  | crash
  | fail
  | ok (root : CItem)

/-- Loader state while scanning rows: the root built so far and the
`parentMap`.  The map sends a stored path to the tree position (child-index
path) of the mapped item, tagged with a generation that is bumped whenever
a new root row replaces `newroot`: entries of an older generation point
into the previous, discarded tree — in the source they are stale pointers
whose items are no longer reachable from `newroot`, so attaching through
them never changes the returned tree, which is what lookup-misses model. -/
structure LoadState where
  root : Option CItem
  pmap : List (WStr × Nat × List Nat)
  gen : Nat

mutual
/-- `AddChild` at a tree position: append as the last child of the item at
`pos` (appending keeps every previously recorded position valid).  An
invalid position leaves the tree unchanged — in the source this is an
`AddChild` on an item not reachable from `newroot`, invisible in the
result. -/
def addChildAt : CItem → List Nat → CItem → CItem
  | .mk a b lc sp sl attr f fo ch, [], c => .mk a b lc sp sl attr f fo (ch ++ [c])
  | .mk a b lc sp sl attr f fo ch, i :: rest, c => .mk a b lc sp sl attr f fo (setChild ch i rest c)

def setChild : List CItem → Nat → List Nat → CItem → List CItem
  | [], _, _, _ => []
  | x :: xs, 0, rest, c => addChildAt x rest c :: xs
  | x :: xs, i + 1, rest, c => x :: setChild xs i rest c
end

/-- Number of children of the item at a position (the index the next
appended child will get). -/
def childCountAt : CItem → List Nat → Nat
  | it, [] => it.children.length
  | it, i :: rest =>
    match it.children.get? i with
    | some c => childCountAt c rest
    | none => 0

/-- `parentMap` lookup, honouring the generation tag. -/
def lookupAssoc (m : List (WStr × Nat × List Nat)) (gen : Nat) (k : WStr) :
    Option (List Nat) :=
  match m.find? (fun e => e.1 == k && e.2.1 == gen) with
  | some e => some e.2.2
  | none => none

/-- Split a path at its last backslash: `none` when there is none (then
`wcsrchr` returns null and the loader constructs a `CItem` from a null
name — undefined behaviour). -/
def lastBackslashSplit (s : WStr) : Option (WStr × WStr) :=
  let after := (s.reverse.takeWhile (fun c => c ≠ '\\')).reverse
  if after.length = s.length then none
  else some (s.take (s.length - after.length - 1), after)

/-- Field access `fields[orderMap[f]]`: `none` models the out-of-bounds
`std::vector::operator[]` (or a `-1` map slot), undefined behaviour. -/
def getField (omap : Field → Option Nat) (fields : List WStr) (f : Field) : Option WStr :=
  match omap f with
  | some i => fields.get? i
  | none => none

/-- One data row of `LoadResults` (the body after the header is set up):
decode the engine type, derive display name and parent path, convert all
numeric fields, construct the item, attach it (new root / root child /
parent-map hit / silently dropped on the release-build `ASSERT(FALSE)`
path), and register interior items with content in `parentMap` (plus the
drive alias without trailing backslash).  `none` models the crashes listed
at `LoadResult.crash`. -/
def processRow (omap : Field → Option Nat) (st : LoadState) (fields : List WStr) :
    Option LoadState :=
  match getField omap fields .attributesWds with
  | none => none
  | some wds =>
    let ty := wcstoulHex wds
    let isRoot := hasTypeFlag ty ITF_ROOTITEM
    let isInRoot := hasTypeFlag ty IT_DRIVE || hasTypeFlag ty IT_UNKNOWN ||
      hasTypeFlag ty IT_FREESPACE
    let useFullPath := isRoot || isInRoot
    match getField omap fields .name with
    | none => none
    | some nameF =>
      let mapPath := nameF
      match (if useFullPath then some (nameF, ([] : WStr)) else
        match lastBackslashSplit nameF with
        | none => none
        | some s => some (s.2, s.1)) with
      | none => none
      | some dn =>
        match getField omap fields .lastChange, getField omap fields .sizePhysical,
            getField omap fields .sizeLogical, getField omap fields .attributes,
            getField omap fields .files, getField omap fields .folders with
        | some lc, some sp, some sl, some attr, some fi, some fo =>
          let newitem := CItem.mk ty dn.1 (FromTimeString lc) (wcstoui64Dec sp)
            (wcstoui64Dec sl) (wcstoulHex attr) (wcstoulDec fi) (wcstoulDec fo) []
          let attach : Option (Option CItem × Nat × Option (List Nat)) :=
            if isRoot then some (some newitem, st.gen + 1, some [])
            else if isInRoot then
              match st.root with
              | none => none
              | some r => some (some (addChildAt r [] newitem), st.gen,
                  some [childCountAt r []])
            else
              match lookupAssoc st.pmap st.gen dn.2 with
              | some ppos =>
                match st.root with
                | some r => some (some (addChildAt r ppos newitem), st.gen,
                    some (ppos ++ [childCountAt r ppos]))
                | none => some (st.root, st.gen, none)
              | none => some (st.root, st.gen, none)
          match attach with
          | none => none
          | some res =>
            let pmap' :=
              match res.2.2 with
              | some pos =>
                if !newitem.TmiIsLeaf && newitem.GetItemsCount > 0 then
                  if hasTypeFlag ty IT_DRIVE then
                    (mapPath.take 2, res.2.1, pos) :: (mapPath, res.2.1, pos) :: st.pmap
                  else (mapPath, res.2.1, pos) :: st.pmap
                else st.pmap
              | none => st.pmap
            some { root := res.1, pmap := pmap', gen := res.2.1 }
        | _, _, _, _, _, _ => none

mutual
/-- The final loop of `LoadResults`: every `parentMap` value gets
`SortItemsBySizePhysical()` (modelled from the spec as an in-place sort of
the children by descending physical size).  Functionally this sorts the
children of every node of the returned tree: nodes never registered in the
map have no attached children (children are only attached through a map
hit or, for the root, through registered root rows), so sorting them is a
no-op, and sorting stale (detached) registered items cannot affect the
returned tree. -/
def sortAllChildren : CItem → CItem
  | .mk a b lc sp sl attr f fo ch =>
    .mk a b lc sp sl attr f fo
      (List.insertionSort (fun x y => y.sizePhysical ≤ x.sizePhysical)
        (sortChildrenList ch))

def sortChildrenList : List CItem → List CItem
  | [] => []
  | c :: cs => sortAllChildren c :: sortChildrenList cs
end

/-- The per-line loop of `LoadResults` after the header has been processed:
empty lines are skipped, a field-parse failure returns `nullptr`, a row is
processed (possibly crashing), and at end of input the sorted tree — or
`nullptr` when no root row was seen — is returned. -/
def loadLines (omap : Field → Option Nat) : List WStr → LoadState → LoadResult
  | [], st =>
    match st.root with
    | some r => .ok (sortAllChildren r)
    | none => .fail
  | l :: rest, st =>
    if l = [] then loadLines omap rest st
    else
      match parseFieldsFrom l with
      | none => .fail
      | some fields =>
        match processRow omap st fields with
        | none => .crash
        | some st' => loadLines omap rest st'

/-- The header phase of `LoadResults`: skip empty lines, parse the first
non-empty line's fields, build `orderMap`, and abort with `nullptr` when a
required column is missing (every column but OWNER). -/
def loadHeaderLoop : List WStr → LoadResult
  | [] => .fail
  | l :: rest =>
    if l = [] then loadHeaderLoop rest
    else
      match parseFieldsFrom l with
      | none => .fail
      | some hf =>
        let omap := ParseHeaderLine hf
        if requiredFields.all (fun f => (omap f).isSome) then
          loadLines omap rest { root := none, pmap := [], gen := 0 }
        else .fail

/-- `LoadResults` on the lines of the input file (the `std::getline` loop;
the text-mode stream strips the `\r` of each `\r\n` terminator). -/
def LoadResults (lines : List WStr) : LoadResult :=
  loadHeaderLoop lines

end Csv

namespace Csv

/-- Concatenated emissions of a writer stack, item by item. -/
def flatEmit (showOwner : Bool) (stack : List (WStr × CItem)) : List WStr :=
  stack.foldr (fun e acc => emitRows showOwner e.1 e.2 ++ acc) []

theorem flatEmit_append (showOwner : Bool) (l1 l2 : List (WStr × CItem)) :
    flatEmit showOwner (l1 ++ l2) = flatEmit showOwner l1 ++ flatEmit showOwner l2 := by
  induction l1 with
  | nil => rfl
  | cons e l1 ih => simp [flatEmit] at ih ⊢; simp [ih]

theorem emitList_eq_flatEmit (showOwner : Bool) (p : WStr) (ch : List CItem) :
    ∀ acc, emitList showOwner p ch acc =
      flatEmit showOwner (childEntries p ch).reverse ++ acc := by
  induction ch with
  | nil => intro acc; rfl
  | cons c cs ih =>
    intro acc
    rw [emitList, ih]
    have : childEntries p (c :: cs) = (pathAppend p c.name, c) :: childEntries p cs := rfl
    rw [this, List.reverse_cons, flatEmit_append]
    simp [flatEmit]

theorem itemWeight_pos (i : CItem) : 1 ≤ itemWeight i := by
  cases i with
  | mk a b lc sp sl attr f fo ch => simp [itemWeight]

theorem saveRowsLoop_eq_aux (showOwner : Bool) :
    ∀ (n : Nat) (stack : List (WStr × CItem)),
      (stack.map (fun e => itemWeight e.2)).sum ≤ n →
      SaveRowsLoop showOwner stack = flatEmit showOwner stack := by
  intro n
  induction n with
  | zero =>
    intro stack h
    cases stack with
    | nil => simp [SaveRowsLoop, flatEmit]
    | cons e rest =>
      exfalso
      have := itemWeight_pos e.2
      simp [List.map_cons, List.sum_cons] at h
      omega
  | succ m ih =>
    intro stack h
    cases stack with
    | nil => simp [SaveRowsLoop, flatEmit]
    | cons e rest =>
      obtain ⟨p, i⟩ := e
      cases i with
      | mk a b lc sp sl attr f fo ch =>
        rw [SaveRowsLoop]
        by_cases hf : (CItem.mk a b lc sp sl attr f fo ch).IsType IT_FILE = true
        · rw [if_pos hf]
          simp only [List.nil_append]
          have hw : (rest.map (fun e => itemWeight e.2)).sum ≤ m := by
            simp only [List.map_cons, List.sum_cons, itemWeight] at h
            omega
          rw [ih rest hw]
          show _ = emitRows showOwner p (CItem.mk a b lc sp sl attr f fo ch) ++
            flatEmit showOwner rest
          rw [emitRows, if_pos hf]
          rfl
        · rw [if_neg hf]
          simp only [CItem.children]
          have hw : ((((childEntries p ch).reverse) ++ rest).map
              (fun e => itemWeight e.2)).sum ≤ m := by
            simp only [List.map_append, List.sum_append, List.map_cons, List.sum_cons,
              itemWeight] at h ⊢
            have hce := stackWeight_childEntries p ch
            simp only [List.map_reverse] at hce ⊢
            omega
          rw [ih _ hw, flatEmit_append]
          show _ = emitRows showOwner p (CItem.mk a b lc sp sl attr f fo ch) ++
            flatEmit showOwner rest
          rw [emitRows, if_neg hf, emitList_eq_flatEmit]
          simp

/-- The writer's stack loop emits, for each stack entry in order, exactly
the recursive emission of that entry's subtree. -/
theorem saveRowsLoop_eq (showOwner : Bool) (stack : List (WStr × CItem)) :
    SaveRowsLoop showOwner stack = flatEmit showOwner stack :=
  saveRowsLoop_eq_aux showOwner _ stack le_rfl

/-- `SaveResults` in recursive form: header line, then the starting item's
emission. -/
theorem saveResults_eq (showOwner : Bool) (item : CItem) :
    SaveResults showOwner true item =
      (headerLine showOwner :: emitRows showOwner item.name item, true) := by
  unfold SaveResults
  rw [if_pos rfl, saveRowsLoop_eq]
  show (_ :: (emitRows showOwner item.name item ++ []), true) = _
  simp

end Csv

namespace Csv

/-- One traversal step of the writer: from a stack entry `(p, a)` with `a`
not file-typed, to the entry the loop pushes for a child `c` of `a`. -/
inductive EmitChild : (WStr × CItem) → (WStr × CItem) → Prop where
  | intro {p : WStr} {a c : CItem}
      (hf : a.IsType IT_FILE = false) (hc : c ∈ a.children) :
      EmitChild (p, a) (pathAppend p c.name, c)

/-- Strict descendant along emitted entries (one or more steps). -/
inductive EmitDesc : (WStr × CItem) → (WStr × CItem) → Prop where
  | base {e1 e2} (h : EmitChild e1 e2) : EmitDesc e1 e2
  | head {e1 e2 e3} (h : EmitChild e1 e2) (ht : EmitDesc e2 e3) : EmitDesc e1 e3

/-- Reflexive-transitive closure of `EmitChild`. -/
inductive EmitReach : (WStr × CItem) → (WStr × CItem) → Prop where
  | refl (e) : EmitReach e e
  | head {e1 e2 e3} (h : EmitChild e1 e2) (ht : EmitReach e2 e3) : EmitReach e1 e3

theorem emitRows_head (showOwner : Bool) (p : WStr) (a : CItem) :
    ∃ t, emitRows showOwner p a = rowLine showOwner p a :: t ∧
      (a.IsType IT_FILE = true → t = []) := by
  cases a with
  | mk x b lc sp sl attr f fo ch =>
    rw [emitRows]
    by_cases hf : (CItem.mk x b lc sp sl attr f fo ch).IsType IT_FILE = true
    · exact ⟨[], by rw [if_pos hf], fun _ => rfl⟩
    · exact ⟨_, by rw [if_neg hf], fun hx => absurd hx hf⟩

theorem mem_flatEmit_within (showOwner : Bool) :
    ∀ (stack : List (WStr × CItem)) (e : WStr × CItem), e ∈ stack →
      (emitRows showOwner e.1 e.2).IsInfix (flatEmit showOwner stack) := by
  intro stack
  induction stack with
  | nil => intro e he; simp at he
  | cons x xs ih =>
    intro e he
    have hsplit : flatEmit showOwner (x :: xs) =
        emitRows showOwner x.1 x.2 ++ flatEmit showOwner xs := rfl
    rcases List.mem_cons.mp he with rfl | hm
    · rw [hsplit]
      exact ⟨[], flatEmit showOwner xs, by simp⟩
    · rw [hsplit]
      exact (ih e hm).trans (List.suffix_append _ _).isInfix

theorem emitChild_tail_within (showOwner : Bool) {e1 e2 : WStr × CItem}
    (h : EmitChild e1 e2) :
    ∃ t, emitRows showOwner e1.1 e1.2 = rowLine showOwner e1.1 e1.2 :: t ∧
      (emitRows showOwner e2.1 e2.2).IsInfix t := by
  cases h with
  | @intro p a c hf hc =>
    cases a with
    | mk x b lc sp sl attr f fo ch =>
      refine ⟨emitList showOwner p ch [], by rw [emitRows, if_neg (by simpa using hf)], ?_⟩
      rw [emitList_eq_flatEmit, List.append_nil]
      refine mem_flatEmit_within showOwner _ (pathAppend p c.name, c) ?_
      simp only [List.mem_reverse, childEntries, List.mem_map]
      exact ⟨c, by simpa [CItem.children] using hc, rfl⟩

theorem emitChild_within (showOwner : Bool) {e1 e2 : WStr × CItem}
    (h : EmitChild e1 e2) :
    (emitRows showOwner e2.1 e2.2).IsInfix (emitRows showOwner e1.1 e1.2) := by
  obtain ⟨t, ht, hin⟩ := emitChild_tail_within showOwner h
  rw [ht]
  exact hin.trans ⟨[rowLine showOwner e1.1 e1.2], [], by simp⟩

theorem emitReach_within (showOwner : Bool) {e1 e2 : WStr × CItem}
    (h : EmitReach e1 e2) :
    (emitRows showOwner e2.1 e2.2).IsInfix (emitRows showOwner e1.1 e1.2) := by
  induction h with
  | refl e => exact List.infix_refl _
  | head hstep _ ih => exact ih.trans (emitChild_within showOwner hstep)

theorem emitDesc_row_in_tail (showOwner : Bool) {e1 e2 : WStr × CItem}
    (h : EmitDesc e1 e2) :
    ∃ t, emitRows showOwner e1.1 e1.2 = rowLine showOwner e1.1 e1.2 :: t ∧
      rowLine showOwner e2.1 e2.2 ∈ t := by
  induction h with
  | base hstep =>
    obtain ⟨t, ht, hin⟩ := emitChild_tail_within showOwner hstep
    refine ⟨t, ht, ?_⟩
    obtain ⟨t2, ht2, _⟩ := emitRows_head showOwner _ _
    exact hin.subset (ht2 ▸ List.mem_cons_self _ _)
  | head hstep ht ih =>
    obtain ⟨t, hteq, hin⟩ := emitChild_tail_within showOwner hstep
    obtain ⟨t2, ht2eq, hmem⟩ := ih
    refine ⟨t, hteq, ?_⟩
    exact hin.subset (ht2eq ▸ List.mem_cons_of_mem _ hmem)

end Csv

/-- Claim C8: for every item, the writer's stack loop emits one CSV row for
the given item first, followed by the rows of its subtree in depth-first
order — the loop equals the recursive pre-order emission (children pushed
onto a stack, hence visited last-child-first), each parent's row precedes
all of its descendants' rows (the two rows occur in order, as a sublist),
and a file-typed item contributes exactly its own row: the writer never
descends into the children of a file. -/
theorem csv_save_preorder (showOwner : Bool) (item : Csv.CItem) :
    Csv.SaveRowsLoop showOwner [(item.name, item)] =
      Csv.emitRows showOwner item.name item ∧
    (Csv.emitRows showOwner item.name item).head? =
      some (Csv.rowLine showOwner item.name item) ∧
    (∀ (p : Csv.WStr) (a : Csv.CItem), a.IsType Csv.IT_FILE = true →
      Csv.emitRows showOwner p a = [Csv.rowLine showOwner p a]) ∧
    (∀ pa qd : Csv.WStr × Csv.CItem, Csv.EmitReach (item.name, item) pa →
      Csv.EmitDesc pa qd →
      List.Sublist [Csv.rowLine showOwner pa.1 pa.2, Csv.rowLine showOwner qd.1 qd.2]
        (Csv.emitRows showOwner item.name item)) := by
  refine ⟨?_, ?_, ?_, ?_⟩
  · rw [Csv.saveRowsLoop_eq]
    show Csv.emitRows showOwner item.name item ++ [] = _
    simp
  · obtain ⟨t, ht, _⟩ := Csv.emitRows_head showOwner item.name item
    rw [ht]
    rfl
  · intro p a hf
    obtain ⟨t, ht, hfile⟩ := Csv.emitRows_head showOwner p a
    rw [ht, hfile hf]
  · intro pa qd hreach hdesc
    obtain ⟨t, ht, hmem⟩ := Csv.emitDesc_row_in_tail showOwner hdesc
    have hsub : List.Sublist [Csv.rowLine showOwner pa.1 pa.2, Csv.rowLine showOwner qd.1 qd.2]
        (Csv.emitRows showOwner pa.1 pa.2) := by
      rw [ht]
      exact List.Sublist.cons₂ _ (List.singleton_sublist.mpr hmem)
    exact hsub.trans (Csv.emitReach_within showOwner hreach).sublist

/-- A one-file demonstration tree for the CSV writer claims: a root
directory `C:\r` holding a single file. -/
def demoFile : Csv.CItem :=
  .mk Csv.IT_FILE "f.txt".toList 0 512 100 32 1 0 []

/-- The root of the demonstration tree. -/
def demoDir : Csv.CItem :=
  .mk (Csv.IT_DIRECTORY ||| Csv.ITF_ROOTITEM) "C:\\r".toList 0 512 100 16 1 1 [demoFile]

/-- Witness for claim C8 at the demonstration tree: the root's row precedes
its file child's row in the emitted output. -/
theorem csv_save_preorder_witness :
    List.Sublist
      [Csv.rowLine false "C:\\r".toList demoDir,
       Csv.rowLine false (Csv.pathAppend "C:\\r".toList demoFile.name) demoFile]
      (Csv.emitRows false demoDir.name demoDir) := by
  have h := (csv_save_preorder false demoDir).2.2.2
    ("C:\\r".toList, demoDir)
    (Csv.pathAppend "C:\\r".toList demoFile.name, demoFile)
    (by
      have : demoDir.name = "C:\\r".toList := rfl
      rw [← this]
      exact Csv.EmitReach.refl _)
    (Csv.EmitDesc.base (Csv.EmitChild.intro (by decide)
      (by show demoFile ∈ demoDir.children; simp [demoDir, Csv.CItem.children])))
  exact h

namespace Csv

theorem loadLines_ne_ok_of_badline (omap : Field → Option Nat) :
    ∀ (lines : List WStr) (st : LoadState) (l : WStr), l ∈ lines →
      parseFieldsFrom l = none → ∀ t, loadLines omap lines st ≠ .ok t := by
  intro lines
  induction lines with
  | nil => intro st l hl; simp at hl
  | cons x rest ih =>
    intro st l hl hbad t
    rcases List.mem_cons.mp hl with rfl | hm
    · have hne : l ≠ [] := by
        intro h
        rw [h] at hbad
        simp [parseFieldsFrom] at hbad
      rw [loadLines, if_neg hne, hbad]
      intro h
      exact LoadResult.noConfusion h
    · by_cases hx : x = []
      · rw [loadLines, if_pos hx]
        exact ih st l hm hbad t
      · rw [loadLines, if_neg hx]
        cases hp : parseFieldsFrom x with
        | none => exact fun h => LoadResult.noConfusion h
        | some fields =>
          cases hr : processRow omap st fields with
          | none =>
            show (match processRow omap st fields with
              | none => LoadResult.crash
              | some st' => loadLines omap rest st') ≠ _
            rw [hr]
            exact fun h => LoadResult.noConfusion h
          | some st' =>
            show (match processRow omap st fields with
              | none => LoadResult.crash
              | some st' => loadLines omap rest st') ≠ _
            rw [hr]
            exact ih st' l hm hbad t

theorem loadHeader_ne_ok_of_badline :
    ∀ (lines : List WStr) (l : WStr), l ∈ lines → parseFieldsFrom l = none →
      ∀ t, loadHeaderLoop lines ≠ .ok t := by
  intro lines
  induction lines with
  | nil => intro l hl; simp at hl
  | cons x rest ih =>
    intro l hl hbad t
    rcases List.mem_cons.mp hl with rfl | hm
    · have hne : l ≠ [] := by
        intro h
        rw [h] at hbad
        simp [parseFieldsFrom] at hbad
      rw [loadHeaderLoop, if_neg hne, hbad]
      intro h
      exact LoadResult.noConfusion h
    · by_cases hx : x = []
      · rw [loadHeaderLoop, if_pos hx]
        exact ih l hm hbad t
      · rw [loadHeaderLoop, if_neg hx]
        cases hp : parseFieldsFrom x with
        | none => exact fun h => LoadResult.noConfusion h
        | some hf =>
          show (if (requiredFields.all fun f => (ParseHeaderLine hf f).isSome) = true then
              loadLines (ParseHeaderLine hf) rest { root := none, pmap := [], gen := 0 }
            else LoadResult.fail) ≠ _
          by_cases hv : (requiredFields.all fun f => (ParseHeaderLine hf f).isSome) = true
          · rw [if_pos hv]
            exact loadLines_ne_ok_of_badline (ParseHeaderLine hf) rest _ l hm hbad t
          · rw [if_neg hv]
            exact fun h => LoadResult.noConfusion h

theorem loadHeader_missing_column :
    ∀ (pre : List WStr) (hdr : WStr) (rest : List WStr) (hf : List WStr) (f : Field),
      (∀ l ∈ pre, l = ([] : WStr)) → hdr ≠ [] → parseFieldsFrom hdr = some hf →
      f ∈ requiredFields → ParseHeaderLine hf f = none →
      loadHeaderLoop (pre ++ hdr :: rest) = .fail := by
  intro pre
  induction pre with
  | nil =>
    intro hdr rest hf f _ hne hp hreq hmiss
    rw [List.nil_append, loadHeaderLoop, if_neg hne, hp]
    have hv : (requiredFields.all fun g => (ParseHeaderLine hf g).isSome) = false := by
      by_contra hx
      simp only [Bool.not_eq_false] at hx
      have := List.all_eq_true.mp hx f hreq
      rw [hmiss] at this
      simp at this
    show (if (requiredFields.all fun g => (ParseHeaderLine hf g).isSome) = true then
        loadLines (ParseHeaderLine hf) rest { root := none, pmap := [], gen := 0 }
      else LoadResult.fail) = _
    rw [if_neg (by simp [hv])]
  | cons x pre ih =>
    intro hdr rest hf f hpre hne hp hreq hmiss
    have hx : x = [] := hpre x (List.mem_cons_self _ _)
    rw [List.cons_append, loadHeaderLoop, if_pos hx]
    exact ih hdr rest hf f (fun l hl => hpre l (List.mem_cons_of_mem _ hl)) hne hp hreq hmiss

end Csv

/-- Claim C6 (amended): a CSV input whose header line (the first non-empty
line) is missing any required column — every column except the optional
OWNER — makes the loader abort and return none (`nullptr`), leaving the
tree unchanged; and an input containing a row with a quoted field that has
no closing quote never yields a tree: the loader returns none when it
reaches that row, unless an earlier malformed row first drives it into a
null-`newroot` dereference or an out-of-bounds field access (a crash
rather than a clean abort). -/
theorem csv_load_malformed_rejected :
    (∀ (pre : List Csv.WStr) (hdr : Csv.WStr) (rest : List Csv.WStr)
        (hf : List Csv.WStr) (f : Csv.Field),
      (∀ l ∈ pre, l = ([] : Csv.WStr)) → hdr ≠ [] →
      Csv.parseFieldsFrom hdr = some hf →
      f ∈ Csv.requiredFields → Csv.ParseHeaderLine hf f = none →
      Csv.LoadResults (pre ++ hdr :: rest) = .fail) ∧
    (∀ (lines : List Csv.WStr) (l : Csv.WStr), l ∈ lines →
      Csv.parseFieldsFrom l = none →
      ∀ t, Csv.LoadResults lines ≠ .ok t) := by
  exact ⟨fun pre hdr rest hf f h1 h2 h3 h4 h5 =>
      Csv.loadHeader_missing_column pre hdr rest hf f h1 h2 h3 h4 h5,
    fun lines l h1 h2 t => Csv.loadHeader_ne_ok_of_badline lines l h1 h2 t⟩

/-- A data row describing a drive (`IT_DRIVE`, no root flag): loaded before
any root row, it makes `LoadResults` call `AddChild` through the null
`newroot`. -/
def driveRowStr : Csv.WStr :=
  "\"C:\\\",0,0,0,0,0x00000000,1601-01-01T00:00:00.0000000Z,0x0002".toList

/-- A row whose quoted field has no closing quote. -/
def badRowStr : Csv.WStr := "\"oops".toList

/-- Claim C6 counterexample: a file whose second row is a drive row with no
preceding root and whose third row has an unterminated quote.  The loader
crashes on the drive row (null `newroot` dereference) before ever seeing
the malformed row, so it does not return none as the claim states. -/
theorem csv_load_malformed_counterexample :
    Csv.LoadResults [Csv.headerLine false, driveRowStr, badRowStr] = .crash ∧
    Csv.parseFieldsFrom badRowStr = none ∧
    badRowStr ∈ [Csv.headerLine false, driveRowStr, badRowStr] ∧
    Csv.LoadResult.crash ≠ Csv.LoadResult.fail := by
  refine ⟨rfl, rfl, ?_, fun h => Csv.LoadResult.noConfusion h⟩
  exact List.mem_cons_of_mem _ (List.mem_cons_of_mem _ (List.mem_cons_self _ _))

/-- A header containing only the NAME column. -/
def nameOnlyHeader : Csv.WStr := "\"Name\"".toList

/-- Witness for claim C6: a file whose header has only the NAME column is
rejected with none (missing FILES column), and a file whose single data row
is an unterminated quote yields no tree. -/
theorem csv_load_malformed_rejected_witness :
    Csv.LoadResults [nameOnlyHeader] = .fail ∧
    Csv.LoadResults [Csv.headerLine false, badRowStr] ≠ .ok demoDir := by
  constructor
  · exact csv_load_malformed_rejected.1 [] nameOnlyHeader [] [Csv.colLabel .name]
      Csv.Field.files (by intro l hl; simp at hl) (by decide) rfl (by decide) rfl
  · exact csv_load_malformed_rejected.2 [Csv.headerLine false, badRowStr] badRowStr
      (List.mem_cons_of_mem _ (List.mem_cons_self _ _)) rfl demoDir

/-- The failing input for claim C1: a root directory item whose
`files_count` is `2^32`, representable in the CSV text (the writer emits
the full decimal `4294967296`) but not in the loader's 32-bit `wcstoul`
conversion. -/
def bigRoot : Csv.CItem :=
  .mk (Csv.IT_DIRECTORY ||| Csv.ITF_ROOTITEM) "C:\\scan".toList 0 4096 100 32 4294967296 0 []

/-- What the loader reconstructs from the saved `bigRoot`: identical in
every field except `files_count`, clamped to `ULONG_MAX`. -/
def bigRootLoaded : Csv.CItem :=
  .mk 4100 "C:\\scan".toList 0 4096 100 32 4294967295 0 []

/-- Claim C1 (code bug): the CSV round-trip is not bit-equal on
`files_count`.  `SaveResults` formats the 64-bit count in full decimal, but
`LoadResults` converts the FILES and FOLDERS fields with the 32-bit
`wcstoul` — right next to the `_wcstoui64` it uses for the two size
columns — so any count at or above `2^32` comes back clamped to
`4294967295`.  Evaluating the code at the failing input: saving a root
whose `files_count` is `2^32` and loading the result yields an item equal
in every field except `files_count`. -/
theorem csv_roundtrip_files_count_truncated :
    Csv.LoadResults (Csv.SaveResults false true bigRoot).1 = .ok bigRootLoaded ∧
    bigRoot.files = 4294967296 ∧
    bigRootLoaded.files = 4294967295 ∧
    bigRootLoaded.files ≠ bigRoot.files := by
  refine ⟨?_, rfl, rfl, by decide⟩
  rw [Csv.saveResults_eq]
  rfl

/-- Claim C10: for every item, and whether or not the output file could be
opened, `SaveResults` returns true: the open result is never checked, a
failed open silently swallows every write (no lines are produced), and the
writer reports no failure whatsoever. -/
theorem csv_save_results_always_true (showOwner canOpen : Bool) (item : Csv.CItem) :
    (Csv.SaveResults showOwner canOpen item).2 = true ∧
    (Csv.SaveResults showOwner false item).1 = [] :=
  ⟨rfl, rfl⟩
